import Mathlib

/-
Verification of the rcodegen workflow orchestration engine.

Shallow embedding of the Go sources:
  pkg/bundle (Bundle, Input, Step data model),
  pkg/orchestrator/context.go (Context, Resolve, SetResult),
  the condition evaluator (EvaluateCondition, evaluate, compare),
  pkg/executor/tool.go (ToolExecutor.Execute),
  the parallel executor (ParallelExecutor.Execute),
  and Orchestrator.Run.

Modelling conventions:
  - Go maps become association lists; a map write prepends the pair, and
    lookups take the first match (latest write wins), which is
    observationally the Go map behaviour for lookup/insert.
  - Go strings become Lean String, scanned as List Char internally.
  - External effects (spawning the tool process, writing workspace files,
    wall-clock time, terminal printing) are not computations of the
    orchestration core; they enter the model as explicit parameters
    (InvokeResult, Workspace, duration) or are dropped (printing).
  - Recursive string scanners take an explicit fuel argument so that every
    definition is structural and executable; each recursive call consumes
    at least one character, so fuel = length + 1 never runs out.
-/

namespace Rcodegen

/-! ## Envelope (pkg/envelope)

Modelled from the spec: the envelope package itself is not among the given
sources, only its callers.  Per the spec, an Envelope carries a status
(Success, Partial, Failure, Skipped), a tool identifier, an opaque output
reference, a structured result mapping, a duration, and an optional error
code/message pair.  The builder calls seen at the call sites
(`envelope.New().Failure(code,msg).Build()`, `.Success()`, `.WithResult`,
`.WithTool`, `.WithOutputRef`, `.WithDuration`) construct exactly these
records, all other fields keeping their zero values. -/

inductive Status where
  | success
  | partialResult
  | failure
  | skipped
deriving DecidableEq, Repr

/-- Go constant string values of the four statuses (used by
`${steps.<name>.status}` resolution). -/
def statusText : Status → String
  | Status.success => "success"
  | Status.partialResult => "partial"
  | Status.failure => "failure"
  | Status.skipped => "skipped"

/-- A value of the untyped result mapping (Go `map[string]interface{}`);
the call sites only ever store integers and strings. -/
inductive RValue where
  | nat (n : Nat)
  | str (s : String)
deriving DecidableEq, Repr

/-- Go `fmt.Sprintf("%v", v)` on the two value forms we model. -/
def rvText : RValue → String
  | RValue.nat n => Nat.repr n
  | RValue.str s => s

structure Envelope where
  status : Status
  tool : String
  outputRef : String
  result : List (String × RValue)
  duration : Int
  error : Option (String × String)
deriving DecidableEq, Repr

/-- Go `envelope.New().Failure(code, msg).Build()`. -/
def failureEnv (code msg : String) : Envelope :=
  { status := Status.failure, tool := "", outputRef := "", result := [],
    duration := 0, error := some (code, msg) }

/-- Go `&envelope.Envelope{Status: envelope.StatusSkipped}` (loader.go). -/
def skippedEnv : Envelope :=
  { status := Status.skipped, tool := "", outputRef := "", result := [],
    duration := 0, error := none }

/-! ## Bundle data model (pkg/bundle types.go) -/

structure Input where
  name : String
  required : Bool
  description : String
  default : String
deriving DecidableEq, Repr

structure MergeDef where
  inputs : List String
  strategy : String
deriving DecidableEq, Repr

structure VoteDef where
  inputs : List String
  strategy : String
deriving DecidableEq, Repr

/-- A Step is recursive (parallel sub-steps, then/else sub-steps), so it is
an inductive with named accessors below.  Field order: name, tool, model,
task, parallel, merge, vote, ifCond (json "if"), thenStep (json "then"),
elseStep (json "else"), save. -/
inductive Step where
  | mk (name tool model task : String) (parallel : List Step)
       (merge : Option MergeDef) (vote : Option VoteDef)
       (ifCond : String) (thenStep elseStep : Option Step) (save : String)

def Step.name : Step → String
  | Step.mk n _ _ _ _ _ _ _ _ _ _ => n

def Step.tool : Step → String
  | Step.mk _ t _ _ _ _ _ _ _ _ _ => t

def Step.model : Step → String
  | Step.mk _ _ m _ _ _ _ _ _ _ _ => m

def Step.task : Step → String
  | Step.mk _ _ _ t _ _ _ _ _ _ _ => t

def Step.parallel : Step → List Step
  | Step.mk _ _ _ _ p _ _ _ _ _ _ => p

def Step.ifCond : Step → String
  | Step.mk _ _ _ _ _ _ _ c _ _ _ => c

def Step.thenStep : Step → Option Step
  | Step.mk _ _ _ _ _ _ _ _ t _ _ => t

def Step.elseStep : Step → Option Step
  | Step.mk _ _ _ _ _ _ _ _ _ e _ => e

/-- Convenience constructor for a plain tool step. -/
def mkToolStep (name tool task : String) : Step :=
  Step.mk name tool "" task [] none none "" none none ""

/-- Convenience constructor for a conditional step. -/
def mkCondStep (name ifc : String) (t : Step) (e : Option Step) : Step :=
  Step.mk name "" "" "" [] none none ifc (some t) e ""

structure Bundle where
  name : String
  description : String
  inputs : List Input
  steps : List Step

/-! ## Context and template resolution (pkg/orchestrator/context.go) -/

structure Context where
  inputs : List (String × String)
  stepResults : List (String × Envelope)
  -- Go field `Variables` (a name Lean reserves), unused by evaluation
  vars : List (String × String)

def NewContext (inputs : List (String × String)) : Context :=
  { inputs := inputs, stepResults := [], vars := [] }

/-- Model of `Context.SetResult`: a Go map write, modelled as a prepend (latest
write shadows older entries for `List.lookup`). -/
def Context.setResult (c : Context) (name : String) (env : Envelope) : Context :=
  { c with stepResults := (name, env) :: c.stepResults }

/-- Go `strings.Split(ref, ".")` on characters. -/
def splitOnDot : List Char → List (List Char)
  | [] => [[]]
  | c :: t =>
    if c = '.' then [] :: splitOnDot t
    else
      match splitOnDot t with
      | h :: r => (c :: h) :: r
      | [] => [[c]]

/-- Serialization of the result mapping used by `${steps.<name>.result}`:
Go `json.Marshal` of a `map[string]interface{}` emits the keys in sorted
order.  String escaping inside values is not modelled (no claim exercises
this serialization). -/
def insertSorted (p : String × RValue) : List (String × RValue) → List (String × RValue)
  | [] => [p]
  | q :: t => if p.1 ≤ q.1 then p :: q :: t else q :: insertSorted p t

def jsonValue : RValue → String
  | RValue.nat n => Nat.repr n
  | RValue.str s => "\"" ++ s ++ "\""

def jsonFields : List (String × RValue) → String
  | [] => ""
  | [p] => "\"" ++ p.1 ++ "\":" ++ jsonValue p.2
  | p :: q :: t => "\"" ++ p.1 ++ "\":" ++ jsonValue p.2 ++ "," ++ jsonFields (q :: t)

def jsonOfResult (m : List (String × RValue)) : String :=
  "\x7b" ++ jsonFields (m.foldr insertSorted []) ++ "\x7d"

/-- The `steps.<name>.<field>` arm of the `switch` in `Context.Resolve`:
`output_ref`, `status`, `result` (whole mapping), `result.<key>`.
`none` means the marker is left unresolved. -/
def stepsField (c : Context) (stepName : String) (field : List Char)
    (rest : List (List Char)) : Option (List Char) :=
  match c.stepResults.lookup stepName with
  | none => none
  | some env =>
    if field = "output_ref".data then some env.outputRef.data
    else if field = "status".data then some (statusText env.status).data
    else if field = "result".data then
      match rest with
      | [] => some (jsonOfResult env.result).data
      | key :: _ => (env.result.lookup (String.mk key)).map (fun v => (rvText v).data)
    else none

/-- The body of the replacement closure in `Context.Resolve`: the marker's
inner path is split on `.` and dispatched on its root namespace.  `none`
means no `return`, i.e. the literal marker text is kept. -/
def resolveRef (c : Context) (ref : List Char) : Option (List Char) :=
  match splitOnDot ref with
  | root :: rest =>
    if root = "inputs".data then
      match rest with
      | name :: _ => (c.inputs.lookup (String.mk name)).map String.data
      | [] => none
    else if root = "steps".data then
      match rest with
      | stepName :: field :: rest2 => stepsField c (String.mk stepName) field rest2
      | _ => none
    else none
  | [] => none

/-- Characters before the first `\x7d` and the characters after it. -/
def splitAtBrace : List Char → Option (List Char × List Char)
  | [] => none
  | c :: t =>
    if c = '\x7d' then some ([], t)
    else (splitAtBrace t).map (fun pr => (c :: pr.1, pr.2))

/-- Does a marker of the regexp `\$\{([^\x7d]+)\}` start at this position?
`ch` is the current character, `t` the remainder; on success returns the
nonempty inner text and the characters after the closing brace. -/
def matchMarker (ch : Char) (t : List Char) : Option (List Char × List Char) :=
  if ch = '$' then
    match t with
    | '\x7b' :: rest =>
      match splitAtBrace rest with
      | some (c1 :: inner, post) => some (c1 :: inner, post)
      | _ => none
    | _ => none
  else none

/-- The scan of `regexp.ReplaceAllStringFunc`: leftmost-first matches of
`\$\{([^\x7d]+)\}`, each replaced (or kept when the closure returns the
match itself), scanning resuming after the match, replacements never
rescanned.  Fuel decreases on every recursive call; every call is on a
strictly shorter list, so fuel = length + 1 suffices. -/
def resolveChars (c : Context) : Nat → List Char → List Char
  | 0, l => l
  | Nat.succ f, [] =>
    -- fuel never runs out on the calls made by `Context.Resolve`
    (fun _ => []) f
  | Nat.succ f, ch :: t =>
    match matchMarker ch t with
    | some (inner, post) =>
      match resolveRef c inner with
      | some repl => repl ++ resolveChars c f post
      | none => '$' :: '\x7b' :: (inner ++ '\x7d' :: resolveChars c f post)
    | none => ch :: resolveChars c f t

/-- Model of `Context.Resolve` (context.go). -/
def Context.Resolve (c : Context) (s : String) : String :=
  String.mk (resolveChars c (s.data.length + 1) s.data)

/-! ## Condition evaluator (EvaluateCondition / evaluate / compare) -/

/-- The whitespace set of Go `strings.TrimSpace` restricted to ASCII
(space, tab, newline, vertical tab, form feed, carriage return); the
Unicode space classes are not exercised by any claim. -/
def isSpaceChar (c : Char) : Bool :=
  c = ' ' ∨ c = '\t' ∨ c = '\n' ∨ c = '\x0b' ∨ c = '\x0c' ∨ c = '\r'

def dropTrailing (p : Char → Bool) (l : List Char) : List Char :=
  (l.reverse.dropWhile p).reverse

/-- Go `strings.TrimSpace`. -/
def goTrimSpace (l : List Char) : List Char :=
  dropTrailing isSpaceChar (l.dropWhile isSpaceChar)

def isQuoteChar (c : Char) : Bool :=
  c = '\x27' ∨ c = '"'

/-- Go `strings.Trim(s, "'\"")`: every leading and trailing quote character
removed. -/
def trimQuotes (l : List Char) : List Char :=
  dropTrailing isQuoteChar (l.dropWhile isQuoteChar)

/-- Go `strings.Index`, returned as the split around the first occurrence of
the (nonempty) pattern: `some (before, after)` with
`l = before ++ pat ++ after` at the leftmost occurrence. -/
def splitFirst (pat : List Char) : List Char → Option (List Char × List Char)
  | [] => none
  | c :: t =>
    if pat.isPrefixOf (c :: t) then some ([], (c :: t).drop pat.length)
    else (splitFirst pat t).map (fun pr => (c :: pr.1, pr.2))

/-- Go `strings.Contains(s, sub)`. -/
def containsSub (s sub : List Char) : Bool :=
  match s with
  | [] => sub.isEmpty
  | _ :: t => sub.isPrefixOf s || containsSub t sub

/-- The comparison operators in the order the Go code scans them:
`ops := []string{">=", "<=", "!=", "==", ">", "<", " contains "}`. -/
def opsList : List (List Char) :=
  [">=".data, "<=".data, "!=".data, "==".data, ">".data, "<".data,
   " contains ".data]

/-- The operator scan of `evaluate`: the first operator (in `opsList`
order) occurring anywhere in the expression wins, split at its leftmost
occurrence. -/
def findOp : List (List Char) → List Char → Option (List Char × List Char × List Char)
  | [], _ => none
  | op :: more, e =>
    match splitFirst op e with
    | some (l, r) => some (op, l, r)
    | none => findOp more e

/-- The value space of `strconv.ParseFloat` as `compare` consumes it: a
finite binary64 value held exactly as `mant * 2 ^ ex`, the two
infinities, and NaN.  `parseGoFloat` below only ever produces mantissas
obtained by IEEE754 round-to-nearest-even, so two strings denoting the
same double yield values the comparisons treat as equal. -/
inductive GoFloat where
  | num (mant : Int) (ex : Int)
  | posInf
  | negInf
  | nan
deriving DecidableEq, Repr

def digitsToNat (l : List Char) : Nat :=
  l.foldl (fun acc c => acc * 10 + (c.toNat - 48)) 0

def spanDigits (l : List Char) : List Char × List Char :=
  (l.takeWhile Char.isDigit, l.dropWhile Char.isDigit)

def isHexDigitChar (c : Char) : Bool :=
  c.isDigit ∨ ('a' ≤ c.toLower ∧ c.toLower ≤ 'f')

def hexVal (c : Char) : Nat :=
  if c.isDigit then c.toNat - 48 else c.toLower.toNat - 87

def hexToNat (l : List Char) : Nat :=
  l.foldl (fun acc c => acc * 16 + hexVal c) 0

def spanHex (l : List Char) : List Char × List Char :=
  (l.takeWhile isHexDigitChar, l.dropWhile isHexDigitChar)

/-- Binary search step for the floor of the base-2 logarithm, on the
invariant `2 ^ lo ≤ n < 2 ^ hi`.  The step count 512 in `floorLog2`
covers any interval narrower than `2 ^ 512`. -/
def log2bs (n : Nat) : Nat → Nat → Nat → Nat
  | 0, lo, _ => lo
  | f + 1, lo, hi =>
    if hi ≤ lo + 1 then lo
    else
      let mid := (lo + hi) / 2
      if 2 ^ mid ≤ n then log2bs n f mid hi else log2bs n f lo mid

/-- Floor of the base-2 logarithm of `n ≥ 1`, given an upper bound on its
bit length (every caller passes one). -/
def floorLog2 (bound n : Nat) : Nat :=
  log2bs n 512 0 (bound + 1)

/-- Round the positive rational `n / d` to the nearest binary64 value,
ties to even -- the IEEE754 unbiased rounding `strconv.ParseFloat` is
specified to perform.  `some (m, s)` carries the exact resulting value
`m * 2 ^ s` (normals, denormals and zero alike); `none` is the overflow
case, in which ParseFloat returns ±Inf together with a non-nil ErrRange
error -- which `compare` treats as a parse failure.  Underflow to zero
carries no error in Go (strconv's `floatBits` sets its overflow flag only
on the ±Inf paths), so it yields `some (0, -1074)` here.  `fuel` is an
upper bound on the bit lengths of `n` and `d`. -/
def roundF64 (fuel : Nat) (n d : Nat) : Option (Nat × Int) :=
  if n = 0 then some (0, -1074)
  else
    let e0 : Int := (floorLog2 fuel n : Int) - (floorLog2 fuel d : Int)
    -- le2 e decides 2 ^ e ≤ n / d exactly
    let le2 : Int → Bool := fun e =>
      if 0 ≤ e then decide (d * 2 ^ e.toNat ≤ n) else decide (d ≤ n * 2 ^ (-e).toNat)
    -- e = floor (log2 (n / d)); e0 is within one of it
    let e : Int := if le2 (e0 + 1) then e0 + 1 else if le2 e0 then e0 else e0 - 1
    -- target scale: 53-bit mantissa for normals, fixed 2^-1074 grid below
    let s : Int := if e - 52 < -1074 then -1074 else e - 52
    let ab : Nat × Nat := if 0 ≤ s then (n, d * 2 ^ s.toNat) else (n * 2 ^ (-s).toNat, d)
    let q := ab.1 / ab.2
    let r := ab.1 % ab.2
    let m := if 2 * r < ab.2 then q
             else if ab.2 < 2 * r then q + 1
             else if q % 2 = 0 then q else q + 1
    let ovf : Bool := if 0 ≤ s then decide (2 ^ 1024 ≤ m * 2 ^ s.toNat)
                      else decide (2 ^ 1024 * 2 ^ (-s).toNat ≤ m)
    if ovf then none else some (m, s)

/-- Attach the sign to a rounded magnitude; `none` propagates ErrRange
(the source's `compare` checks `lerr != nil`, not which error). -/
def mkFloat (neg : Bool) (fuel : Nat) (n d : Nat) : Option GoFloat :=
  (roundF64 fuel n d).map (fun p =>
    GoFloat.num (if neg then -(p.1 : Int) else (p.1 : Int)) p.2)

/-- A decimal mantissa and exponent, `m * 10 ^ e10`, rounded to binary64.
The fuel bounds the bit lengths: `m < 2 ^ (4 * digits)` and
`10 ^ k < 2 ^ (4 * k)`. -/
def mkDec (neg : Bool) (digits : Nat) (m : Nat) (e10 : Int) : Option GoFloat :=
  let fuel := 4 * digits + 4 * e10.natAbs + 64
  if 0 ≤ e10 then mkFloat neg fuel (m * 10 ^ e10.toNat) 1
  else mkFloat neg fuel m (10 ^ (-e10).toNat)

/-- A hexadecimal mantissa and binary exponent, `m * 2 ^ e2`, rounded to
binary64. -/
def mkBin (neg : Bool) (digits : Nat) (m : Nat) (e2 : Int) : Option GoFloat :=
  let fuel := 4 * digits + e2.natAbs + 64
  if 0 ≤ e2 then mkFloat neg fuel (m * 2 ^ e2.toNat) 1
  else mkFloat neg fuel m (2 ^ (-e2).toNat)

/-- The scan loop of strconv's `underscoreOK`, transliterated: `saw` is
the class of the previous character (`^` start, `0` digit or base prefix,
`_` underscore, `!` other), exactly as in the Go source. -/
def underscoreScan (hex : Bool) : Char → List Char → Bool
  | saw, [] => decide (¬ saw = '_')
  | saw, c :: t =>
    if c.isDigit ∨ (hex ∧ 'a' ≤ c.toLower ∧ c.toLower ≤ 'f') then
      underscoreScan hex '0' t
    else if c = '_' then
      if saw = '0' then underscoreScan hex '_' t else false
    else if saw = '_' then false
    else underscoreScan hex '!' t

/-- strconv's `underscoreOK`: underscores may appear only between digits
or between a base prefix and a digit (sign skipped first). -/
def underscoreOK (s : List Char) : Bool :=
  let s1 := match s with
    | c :: t => if c = '+' ∨ c = '-' then t else s
    | [] => s
  match s1 with
  | '0' :: c2 :: t =>
    if c2.toLower = 'b' ∨ c2.toLower = 'o' ∨ c2.toLower = 'x' then
      underscoreScan (c2.toLower = 'x') '0' t
    else underscoreScan false '^' ('0' :: c2 :: t)
  | _ => underscoreScan false '^' s1

/-- The decimal number form after sign stripping: digits with at most one
dot and at least one digit, optional `e`/`E` exponent with mandatory
digits, nothing trailing. -/
def parseDecNum (neg : Bool) (r : List Char) : Option GoFloat :=
  let ipr := spanDigits r
  let ip := ipr.1
  let fpr :=
    match ipr.2 with
    | '.' :: t => spanDigits t
    | _ => ([], ipr.2)
  let fp := fpr.1
  let r2 := fpr.2
  if ip = [] ∧ fp = [] then none
  else
    let m := digitsToNat (ip ++ fp)
    let digits := (ip ++ fp).length
    match r2 with
    | [] => mkDec neg digits m (-(Int.ofNat fp.length))
    | e :: t =>
      if e = 'e' ∨ e = 'E' then
        let esgn : Bool × List Char :=
          match t with
          | '+' :: u => (false, u)
          | '-' :: u => (true, u)
          | _ => (false, t)
        let edr := spanDigits esgn.2
        if edr.1 = [] ∨ edr.2 ≠ [] then none
        else
          let ev : Int := Int.ofNat (digitsToNat edr.1)
          let ev := if esgn.1 then -ev else ev
          mkDec neg digits m (ev - Int.ofNat fp.length)
      else none

/-- The hexadecimal form after the sign and `0x`/`0X` prefix: hex digits
with at most one dot and at least one digit, then a mandatory `p`/`P`
exponent in decimal (Go floating-point literal syntax), nothing
trailing.  The value is `mant * 2 ^ (p - 4 * fracDigits)`. -/
def parseHexNum (neg : Bool) (r : List Char) : Option GoFloat :=
  let ipr := spanHex r
  let ip := ipr.1
  let fpr :=
    match ipr.2 with
    | '.' :: t => spanHex t
    | _ => ([], ipr.2)
  let fp := fpr.1
  let r2 := fpr.2
  if ip = [] ∧ fp = [] then none
  else
    match r2 with
    | [] => none
    | p :: t =>
      if p = 'p' ∨ p = 'P' then
        let esgn : Bool × List Char :=
          match t with
          | '+' :: u => (false, u)
          | '-' :: u => (true, u)
          | _ => (false, t)
        let edr := spanDigits esgn.2
        if edr.1 = [] ∨ edr.2 ≠ [] then none
        else
          let ev : Int := Int.ofNat (digitsToNat edr.1)
          let ev := if esgn.1 then -ev else ev
          mkBin neg ((ip ++ fp).length) (hexToNat (ip ++ fp))
            (ev - 4 * Int.ofNat fp.length)
      else none

/-- An underscore-free `ParseFloat` input: sign, then the case-insensitive
specials `inf`/`infinity`, then the hexadecimal or decimal number form. -/
def parseClean (s : List Char) : Option GoFloat :=
  let sgn : Bool × List Char :=
    match s with
    | '+' :: t => (false, t)
    | '-' :: t => (true, t)
    | _ => (false, s)
  let neg := sgn.1
  let r := sgn.2
  let low := r.map Char.toLower
  if low = "inf".data ∨ low = "infinity".data then
    some (if neg then GoFloat.negInf else GoFloat.posInf)
  else
    match r with
    | '0' :: x :: t =>
      if x = 'x' ∨ x = 'X' then parseHexNum neg t
      else parseDecNum neg r
    | _ => parseDecNum neg r

/-- Go `strconv.ParseFloat(s, 64)` as the source's `compare` consumes it:
`none` exactly when ParseFloat returns a non-nil error (syntax error or
ErrRange overflow to ±Inf), otherwise the parsed value.  Accepted syntax:
optional sign; `inf`/`infinity` (signed) and `nan` (unsigned),
case-insensitive; decimal mantissa with optional fraction and `e`/`E`
exponent; hexadecimal mantissa with mandatory `p`/`P` exponent;
underscores wherever `underscoreOK` allows them (they only ever separate
digits or follow the base prefix, so removing them after that check
preserves the digit runs, as in strconv's readFloat).  The value is the
nearest binary64, ties to even. -/
def parseGoFloat (s : List Char) : Option GoFloat :=
  match s with
  | [] => none
  | _ =>
    if s.map Char.toLower = "nan".data then some GoFloat.nan
    else if s.contains '_' then
      if underscoreOK s then parseClean (s.filter (fun c => ¬ c = '_'))
      else none
    else parseClean s

/-- Exact comparison of two binary-scaled integers `m1*2^e1 < m2*2^e2` by
cross-scaling to the smaller exponent (the powers are computed in `Nat`,
which evaluates without deep recursion). -/
def numLt (m1 e1 m2 e2 : Int) : Bool :=
  decide (m1 * Int.ofNat (2 ^ (e1 - min e1 e2).toNat) <
          m2 * Int.ofNat (2 ^ (e2 - min e1 e2).toNat))

def numEq (m1 e1 m2 e2 : Int) : Bool :=
  decide (m1 * Int.ofNat (2 ^ (e1 - min e1 e2).toNat) =
          m2 * Int.ofNat (2 ^ (e2 - min e1 e2).toNat))

/-- IEEE `<` on the modelled values: any comparison with NaN is false. -/
def goLt : GoFloat → GoFloat → Bool
  | GoFloat.num m1 e1, GoFloat.num m2 e2 => numLt m1 e1 m2 e2
  | GoFloat.num _ _, GoFloat.posInf => true
  | GoFloat.negInf, GoFloat.num _ _ => true
  | GoFloat.negInf, GoFloat.posInf => true
  | _, _ => false

/-- IEEE `==` on the modelled values: NaN equals nothing. -/
def goEq : GoFloat → GoFloat → Bool
  | GoFloat.num m1 e1, GoFloat.num m2 e2 => numEq m1 e1 m2 e2
  | GoFloat.posInf, GoFloat.posInf => true
  | GoFloat.negInf, GoFloat.negInf => true
  | _, _ => false

def goLe (a b : GoFloat) : Bool :=
  goLt a b || goEq a b

/-- Model of `compare(left, op, right)` (the condition evaluator source): quote
stripping, then the operator switch; numeric operators parse both sides
and return false on either parse error; the final `return false` is the
switch fall-through. -/
def compare (left op right : String) : Bool :=
  let l := trimQuotes left.data
  let r := trimQuotes right.data
  if op = "==" then decide (l = r)
  else if op = "!=" then decide (l ≠ r)
  else if op = " contains " then containsSub l r
  else if op = ">" ∨ op = "<" ∨ op = ">=" ∨ op = "<=" then
    match parseGoFloat l, parseGoFloat r with
    | some a, some b =>
      if op = ">" then goLt b a
      else if op = "<" then goLt a b
      else if op = ">=" then goLe b a
      else goLe a b
    | _, _ => false
  else false

/-- Model of `evaluate(expr)` (the condition evaluator source): trim, split at the
first `" OR "` (lowest precedence), else at the first `" AND "`, else
scan for a comparison operator, else compare with the literal `true`.
Fuel decreases on each recursive call; both recursive arguments are
strictly shorter than the input, so fuel = length + 1 suffices. -/
def evalExpr : Nat → List Char → Bool
  | 0, _ => false
  | Nat.succ f, l =>
    let e := goTrimSpace l
    match splitFirst " OR ".data e with
    | some (a, b) => evalExpr f a || evalExpr f b
    | none =>
      match splitFirst " AND ".data e with
      | some (a, b) => evalExpr f a && evalExpr f b
      | none =>
        match findOp opsList e with
        | some (op, lr) =>
          compare (String.mk (goTrimSpace lr.1)) (String.mk op)
                  (String.mk (goTrimSpace lr.2))
        | none => decide (e = "true".data)

def evaluate (expr : String) : Bool :=
  evalExpr (expr.data.length + 1) expr.data

/-- Model of `EvaluateCondition(condition, ctx)`. -/
def EvaluateCondition (condition : String) (ctx : Context) : Bool :=
  if condition = "" then true
  else evaluate (ctx.Resolve condition)

/-! ## Tool executor (pkg/executor/tool.go) -/

/-- The `runner.Tool` interface as the tool executor consumes it: only
`DefaultModel()` feeds data the executor keeps; `BuildCommand` feeds the
external invocation, which enters the model as `InvokeResult`. -/
structure Tool where
  defaultModel : String
deriving DecidableEq, Repr

/-- The outcome of the blocking external invocation `cmd.Run()` with the
captured buffers: `err = none` is a nil error from `Run`. -/
structure InvokeResult where
  stdout : String
  stderr : String
  err : Option String
deriving DecidableEq, Repr

/-- Modelled from the spec: `workspace.Workspace` is not among the given
sources.  Per the spec the output sink persists a payload under the step
name and returns an opaque reference; distinct names map to distinct
storage locations.  The reference is modelled as a path derived from the
job directory and the step name; its exact shape is never relied on. -/
structure Workspace where
  jobID : String
  jobDir : String
deriving DecidableEq, Repr

/-- The reference returned by `ws.WriteOutput(step.Name, payload)`.  The
payload (stdout/stderr) is persisted externally and does not influence
the reference. -/
def Workspace.writeOutput (ws : Workspace) (name : String) : String :=
  ws.jobDir ++ "/" ++ name ++ ".json"

/-- Model of `ToolExecutor.Execute` (tool.go).  `invoke` is the result of the
external `cmd.Run()` call built from the resolved task and effective
model; `durationMs` is the measured wall time (external input). -/
def toolExecute (registry : List (String × Tool)) (step : Step) (ctx : Context)
    (ws : Workspace) (invoke : InvokeResult) (durationMs : Int) :
    Envelope × Option String :=
  match registry.lookup step.tool with
  | none => (failureEnv "TOOL_NOT_FOUND" ("Unknown tool: " ++ step.tool), none)
  | some tool =>
    let task := ctx.Resolve step.task
    let model := if step.model = "" then tool.defaultModel else step.model
    -- task and model feed cmd := tool.BuildCommand(cfg, workDir, task); the
    -- invocation itself is external and represented by `invoke`
    let _ := task
    let _ := model
    let outputPath := ws.writeOutput step.name
    match invoke.err with
    | some e =>
      ({ status := Status.failure, tool := step.tool, outputRef := outputPath,
         result := [], duration := durationMs,
         error := some ("EXEC_FAILED", e) }, none)
    | none =>
      ({ status := Status.success, tool := step.tool, outputRef := outputPath,
         result := [("output_length", RValue.nat invoke.stdout.length)],
         duration := durationMs, error := none }, none)

/-! ## Dispatcher abstraction and the parallel executor -/

/-- What one `dispatcher.Execute(step, ctx, ws)` call produces: the
Envelope, the Go error, and the Context as the call left it (the Go
dispatcher receives the Context by pointer and a parallel step mutates
it). -/
structure DispatchOut where
  env : Envelope
  err : Option String
  ctx : Context

/-- The `StepExecutor` interface consumed by the orchestrator and by the
parallel executor. -/
def Dispatch : Type :=
  Step → Context → DispatchOut

structure CollectOut where
  results : List (String × Envelope)
  firstErr : Option String
  ctx : Context

/-- The fan-out/fan-in body of `ParallelExecutor.Execute`: every sub-step
is dispatched, its Envelope keyed by its name in `results` and written
into the shared Context.  The Go code runs the sub-steps concurrently
under a mutex; the model executes them in list order, one admissible
serialization (the claims proved below are schedule-independent given
distinct sub-step names).  `firstErr` keeps the first hard error in this
order. -/
def parallelCollect (D : Dispatch) : List Step → Context → CollectOut
  | [], ctx => { results := [], firstErr := none, ctx := ctx }
  | s :: rest, ctx =>
    let r := D s ctx
    let ctx3 := Context.setResult r.ctx s.name r.env
    let tail := parallelCollect D rest ctx3
    { results := (s.name, r.env) :: tail.results,
      firstErr := match r.err with
                  | some e => some e
                  | none => tail.firstErr,
      ctx := tail.ctx }

/-- Model of `ParallelExecutor.Execute`: aggregate status is Success when every
collected Envelope is Success, else Partial; the aggregate result maps
`steps` and `completed` to the number of collected results. -/
def parallelExecute (D : Dispatch) (step : Step) (ctx : Context) : DispatchOut :=
  let col := parallelCollect D step.parallel ctx
  let allSuccess := col.results.all (fun p => p.2.status = Status.success)
  { env := { status := if allSuccess then Status.success else Status.partialResult,
             tool := "", outputRef := "",
             result := [("steps", RValue.nat col.results.length),
                        ("completed", RValue.nat col.results.length)],
             duration := 0, error := none },
    err := col.firstErr,
    ctx := col.ctx }

/-! ## Orchestrator (Orchestrator.Run) -/

/-- How the per-step loop of `Orchestrator.Run` ends: `halted` carries the
Envelope and error returned early; `completed` means the loop ran off the
end of the step list.  Both carry the final Context and, as an observable
of the model, the trace of step names passed to `dispatcher.Execute` in
order. -/
inductive StepsOutcome where
  | halted (env : Envelope) (err : Option String) (ctx : Context) (trace : List String)
  | completed (ctx : Context) (trace : List String)

/-- The step loop of `Orchestrator.Run` (loader.go):
1. a step with nonempty `if` that evaluates false is recorded Skipped;
2. a step with a `then` sub-step re-evaluates the condition, dispatches
   `then` on true, else `else` when present, records the branch Envelope
   under the parent step's name, and continues with no status check;
3. otherwise the step is dispatched; a hard error returns it unrecorded,
   a Failure-status Envelope is recorded and halts the run. -/
def runSteps (D : Dispatch) : List Step → Context → List String → StepsOutcome
  | [], ctx, tr => StepsOutcome.completed ctx tr
  | s :: rest, ctx, tr =>
    if s.ifCond ≠ "" ∧ EvaluateCondition s.ifCond ctx = false then
      runSteps D rest (ctx.setResult s.name skippedEnv) tr
    else
      match s.thenStep with
      | some t =>
        if EvaluateCondition s.ifCond ctx then
          let r := D t ctx
          let ctx2 := Context.setResult r.ctx s.name r.env
          match r.err with
          | some e => StepsOutcome.halted r.env (some e) ctx2 (tr ++ [t.name])
          | none => runSteps D rest ctx2 (tr ++ [t.name])
        else
          match s.elseStep with
          | some el =>
            let r := D el ctx
            let ctx2 := Context.setResult r.ctx s.name r.env
            match r.err with
            | some e => StepsOutcome.halted r.env (some e) ctx2 (tr ++ [el.name])
            | none => runSteps D rest ctx2 (tr ++ [el.name])
          | none => runSteps D rest ctx tr
      | none =>
        let r := D s ctx
        match r.err with
        | some e => StepsOutcome.halted r.env (some e) r.ctx (tr ++ [s.name])
        | none =>
          let ctx2 := Context.setResult r.ctx s.name r.env
          if r.env.status = Status.failure then
            StepsOutcome.halted r.env (some ("step " ++ s.name ++ " failed"))
              ctx2 (tr ++ [s.name])
          else runSteps D rest ctx2 (tr ++ [s.name])

/-- The required-input validation loop at the top of `Orchestrator.Run`:
a required input absent from the supplied map takes its nonempty default,
or fails the run with MISSING_INPUT. -/
def validateInputs : List Input → List (String × String) → Sum Envelope (List (String × String))
  | [], m => Sum.inr m
  | i :: rest, m =>
    if i.required then
      match m.lookup i.name with
      | some _ => validateInputs rest m
      | none =>
        if i.default ≠ "" then validateInputs rest ((i.name, i.default) :: m)
        else Sum.inl (failureEnv "MISSING_INPUT" ("Required input: " ++ i.name))
    else validateInputs rest m

/-- What `Orchestrator.Run` returns, extended with the final Context and
the dispatch trace as observables of the model (the Go function prints
them or drops them). -/
structure RunResult where
  env : Envelope
  err : Option String
  ctx : Context
  trace : List String

/-- The step-loop phase of `Orchestrator.Run` on the validated input map:
a completed loop yields the Success summary Envelope with the step count
and job id. -/
def stepsPhase (D : Dispatch) (b : Bundle) (m : List (String × String))
    (jobID : String) : RunResult :=
  match runSteps D b.steps (NewContext m) [] with
  | StepsOutcome.halted env err ctx tr =>
    { env := env, err := err, ctx := ctx, trace := tr }
  | StepsOutcome.completed ctx tr =>
    { env := { status := Status.success, tool := "", outputRef := "",
               result := [("steps", RValue.nat b.steps.length),
                          ("job_id", RValue.str jobID)],
               duration := 0, error := none },
      err := none, ctx := ctx, trace := tr }

/-- Model of `Orchestrator.Run(b, inputs)`: validate required inputs, then run the
step loop.  Workspace creation is I/O and assumed to succeed (its failure
path, WORKSPACE_ERROR, is not claimed); wall-clock duration is not
modelled. -/
def Run (D : Dispatch) (b : Bundle) (inputs : List (String × String))
    (jobID : String) : RunResult :=
  match validateInputs b.inputs inputs with
  | Sum.inl env => { env := env, err := none, ctx := NewContext inputs, trace := [] }
  | Sum.inr m => stepsPhase D b m jobID

/-! ## Theorems -/

/-- C8 -- For every tool step whose tool identifier exists in the
registry, the tool executor's Envelope is determined solely by the
external invocation's outcome: a nil invocation error yields Success with
`output_length` = captured stdout length, a non-nil one yields Failure
with code EXEC_FAILED carrying the error text; the Go error returned is
nil either way, and the stderr content never influences the result. -/
theorem C8_tool_exit_status (registry : List (String × Tool)) (step : Step)
    (ctx : Context) (ws : Workspace) (invoke : InvokeResult) (d : Int)
    (tool : Tool) (hreg : registry.lookup step.tool = some tool) :
    (toolExecute registry step ctx ws invoke d).2 = none ∧
    (invoke.err = none →
      (toolExecute registry step ctx ws invoke d).1.status = Status.success ∧
      (toolExecute registry step ctx ws invoke d).1.result.lookup "output_length"
        = some (RValue.nat invoke.stdout.length)) ∧
    (∀ e, invoke.err = some e →
      (toolExecute registry step ctx ws invoke d).1.status = Status.failure ∧
      (toolExecute registry step ctx ws invoke d).1.error = some ("EXEC_FAILED", e)) ∧
    (∀ alt : String,
      toolExecute registry step ctx ws { invoke with stderr := alt } d
        = toolExecute registry step ctx ws invoke d) := by
  obtain ⟨so, se, er⟩ := invoke
  cases er <;>
    simp [toolExecute, hreg, List.lookup]

def c8reg : List (String × Tool) :=
  [("claude", { defaultModel := "m1" })]

def c8step : Step :=
  mkToolStep "s" "claude" "t"

def c8ws : Workspace :=
  { jobID := "j", jobDir := "/w" }

def c8inv : InvokeResult :=
  { stdout := "abcd", stderr := "zz", err := none }

/-- Witness for C8 at a concrete registry, step and invocation. -/
theorem C8_tool_exit_status_witness :
    c8reg.lookup c8step.tool = some ({ defaultModel := "m1" } : Tool) ∧
    ((toolExecute c8reg c8step (NewContext []) c8ws c8inv 7).1.status = Status.success ∧
     (toolExecute c8reg c8step (NewContext []) c8ws c8inv 7).1.result.lookup "output_length"
       = some (RValue.nat 4)) :=
  ⟨by decide, by
    have h := C8_tool_exit_status c8reg c8step (NewContext []) c8ws c8inv 7
      { defaultModel := "m1" } (by decide)
    exact ⟨(h.2.1 rfl).1, by rw [(h.2.1 rfl).2]; rfl⟩⟩

/-- C10 -- When the tool identifier is absent from the registry, the tool
executor returns the TOOL_NOT_FOUND Failure Envelope and a nil Go error;
the result is independent of the Context, the workspace and the external
invocation (so nothing was resolved, invoked or written), and the Envelope
carries no output reference. -/
theorem C10_tool_not_found (registry : List (String × Tool)) (step : Step)
    (hreg : registry.lookup step.tool = none) :
    (∀ ctx ws invoke d,
      toolExecute registry step ctx ws invoke d
        = (failureEnv "TOOL_NOT_FOUND" ("Unknown tool: " ++ step.tool), none)) ∧
    (failureEnv "TOOL_NOT_FOUND" ("Unknown tool: " ++ step.tool)).status = Status.failure ∧
    (failureEnv "TOOL_NOT_FOUND" ("Unknown tool: " ++ step.tool)).error
      = some ("TOOL_NOT_FOUND", "Unknown tool: " ++ step.tool) ∧
    (failureEnv "TOOL_NOT_FOUND" ("Unknown tool: " ++ step.tool)).outputRef = "" := by
  refine ⟨fun ctx ws invoke d => ?_, rfl, rfl, rfl⟩
  simp [toolExecute, hreg]

/-- Witness for C10: the empty registry at a concrete step. -/
theorem C10_tool_not_found_witness :
    (([] : List (String × Tool)).lookup c8step.tool = none) ∧
    toolExecute [] c8step (NewContext []) c8ws c8inv 7
      = (failureEnv "TOOL_NOT_FOUND" "Unknown tool: claude", none) :=
  ⟨rfl, by
    have h := C10_tool_not_found [] c8step rfl
    exact h.1 (NewContext []) c8ws c8inv 7⟩

/-- The numeric arm of `compare` yields false as soon as either operand
(quote-stripped) fails to parse as a float. -/
theorem compare_numeric_none (left op right : String)
    (hop : op = ">" ∨ op = "<" ∨ op = ">=" ∨ op = "<=")
    (h : parseGoFloat (trimQuotes left.data) = none ∨
         parseGoFloat (trimQuotes right.data) = none) :
    compare left op right = false := by
  have hneq1 : ¬ op = "==" := by rcases hop with rfl | rfl | rfl | rfl <;> decide
  have hneq2 : ¬ op = "!=" := by rcases hop with rfl | rfl | rfl | rfl <;> decide
  have hneq3 : ¬ op = " contains " := by rcases hop with rfl | rfl | rfl | rfl <;> decide
  unfold compare
  rw [if_neg hneq1, if_neg hneq2, if_neg hneq3, if_pos hop]
  rcases h with h | h
  · rw [h]
  · rw [h]
    rcases parseGoFloat (trimQuotes left.data) with _ | a <;> rfl

/-- C7 -- For every numeric comparison reached by the condition
evaluator, the operands are whitespace-trimmed and quote-stripped before
being parsed as floats, and a parse failure on either side makes the
whole condition evaluate to false -- `evaluate` is a total function, so
evaluation never aborts. -/
theorem C7_numeric_parse_failure (s : String) (op left right : List Char)
    (hOR : splitFirst " OR ".data (goTrimSpace s.data) = none)
    (hAND : splitFirst " AND ".data (goTrimSpace s.data) = none)
    (hFind : findOp opsList (goTrimSpace s.data) = some (op, left, right))
    (hop : op = ">".data ∨ op = "<".data ∨ op = ">=".data ∨ op = "<=".data)
    (hPar : parseGoFloat (trimQuotes (goTrimSpace left)) = none ∨
            parseGoFloat (trimQuotes (goTrimSpace right)) = none) :
    evaluate s = false ∧
    compare (String.mk (goTrimSpace left)) (String.mk op)
      (String.mk (goTrimSpace right)) = false := by
  have hcmp : compare (String.mk (goTrimSpace left)) (String.mk op)
      (String.mk (goTrimSpace right)) = false := by
    apply compare_numeric_none
    · rcases hop with rfl | rfl | rfl | rfl
      · exact Or.inl rfl
      · exact Or.inr (Or.inl rfl)
      · exact Or.inr (Or.inr (Or.inl rfl))
      · exact Or.inr (Or.inr (Or.inr rfl))
    · exact hPar
  refine ⟨?_, hcmp⟩
  unfold evaluate
  simp only [evalExpr, hOR, hAND, hFind]
  exact hcmp

set_option maxRecDepth 20000 in
set_option exponentiation.threshold 8000 in
/-- Witness for C7, applied twice: `"abc > 5"` has a numeric comparison
whose left operand is a syntax error, and `"1e999 > 1"` one whose left
operand overflows (Go's ParseFloat returns ±Inf with a non-nil ErrRange
error there); both conditions evaluate to false.  The final conjuncts pin
the ParseFloat model itself: hex-float and underscore operands parse (so
they are outside the parse-failure hypothesis, and such conditions
evaluate numerically), and `0.1` parses to its exact binary64 value
`7205759403792794 * 2 ^ -56`. -/
theorem C7_numeric_parse_failure_witness :
    (splitFirst " OR ".data (goTrimSpace "abc > 5".data) = none ∧
     splitFirst " AND ".data (goTrimSpace "abc > 5".data) = none ∧
     findOp opsList (goTrimSpace "abc > 5".data)
       = some (">".data, "abc ".data, " 5".data) ∧
     parseGoFloat (trimQuotes (goTrimSpace "abc ".data)) = none ∧
     parseGoFloat (trimQuotes (goTrimSpace "1e999 ".data)) = none) ∧
    evaluate "abc > 5" = false ∧
    evaluate "1e999 > 1" = false ∧
    (evaluate "0x1p1 > 1.5" = true ∧
     evaluate "1_0 < 11" = true ∧
     parseGoFloat "0.1".data = some (GoFloat.num 7205759403792794 (-56))) :=
  ⟨⟨by decide, by decide, by decide, by decide, by decide⟩,
   (C7_numeric_parse_failure "abc > 5" ">".data "abc ".data " 5".data
     (by decide) (by decide) (by decide) (Or.inl rfl) (Or.inl (by decide))).1,
   (C7_numeric_parse_failure "1e999 > 1" ">".data "1e999 ".data " 1".data
     (by decide) (by decide) (by decide) (Or.inl rfl) (Or.inl (by decide))).1,
   by decide, by decide, by decide⟩

theorem data_append (a b : String) : (a ++ b).data = a.data ++ b.data :=
  rfl

theorem mk_data (s : String) : String.mk s.data = s :=
  rfl

theorem resolveChars_nil (c : Context) (f : Nat) : resolveChars c f [] = [] := by
  cases f <;> rfl

theorem splitAtBrace_append (a b : List Char) (h : '\x7d' ∉ a) :
    splitAtBrace (a ++ '\x7d' :: b) = some (a, b) := by
  induction a with
  | nil => simp [splitAtBrace]
  | cons c t ih =>
    have hc : ¬ c = '\x7d' := fun hc => h (hc ▸ List.mem_cons_self c t)
    have ht : '\x7d' ∉ t := fun hm => h (List.mem_cons_of_mem c hm)
    simp [splitAtBrace, hc, ih ht]

theorem matchMarker_eq (inner post : List Char) (hne : inner ≠ [])
    (h : '\x7d' ∉ inner) :
    matchMarker '$' ('\x7b' :: (inner ++ '\x7d' :: post)) = some (inner, post) := by
  cases inner with
  | nil => exact absurd rfl hne
  | cons c1 t =>
    have hs := splitAtBrace_append (c1 :: t) post h
    rw [List.cons_append] at hs
    simp [matchMarker, hs]

theorem splitOnDot_no_dot (l : List Char) (h : '.' ∉ l) : splitOnDot l = [l] := by
  induction l with
  | nil => rfl
  | cons c t ih =>
    have hc : ¬ c = '.' := fun hc => h (hc ▸ List.mem_cons_self c t)
    have ht : '.' ∉ t := fun hm => h (List.mem_cons_of_mem c hm)
    simp [splitOnDot, hc, ih ht]

theorem splitOnDot_append (a b : List Char) (h : '.' ∉ a) :
    splitOnDot (a ++ '.' :: b) = a :: splitOnDot b := by
  induction a with
  | nil => simp [splitOnDot]
  | cons c t ih =>
    have hc : ¬ c = '.' := fun hc => h (hc ▸ List.mem_cons_self c t)
    have ht : '.' ∉ t := fun hm => h (List.mem_cons_of_mem c hm)
    rw [List.cons_append]
    simp only [splitOnDot, hc, if_false, ih ht]

theorem resolveRef_inputs (c : Context) (x : List Char) (h : '.' ∉ x) :
    resolveRef c ("inputs.".data ++ x)
      = (c.inputs.lookup (String.mk x)).map String.data := by
  have hsplit : splitOnDot ("inputs.".data ++ x) = ["inputs".data, x] := by
    have heq : "inputs.".data ++ x = "inputs".data ++ '.' :: x := rfl
    rw [heq, splitOnDot_append "inputs".data x (by decide),
        splitOnDot_no_dot x h]
  unfold resolveRef
  rw [hsplit]
  simp

/-- Resolving a template that is one `inputs` marker: the mapped value
verbatim when the name is present, the untouched marker text when it is
absent.  Hypotheses: the name contains no `.` (the path split would
truncate it) and no closing brace (the marker regexp could not span
it). -/
theorem resolve_single_marker (c : Context) (x : String)
    (hdot : '.' ∉ x.data) (hbr : '\x7d' ∉ x.data) :
    Context.Resolve c ("$\x7binputs." ++ x ++ "\x7d")
      = (match c.inputs.lookup x with
         | some v => v
         | none => "$\x7binputs." ++ x ++ "\x7d") := by
  have hdata : ("$\x7binputs." ++ x ++ "\x7d").data
      = '$' :: '\x7b' :: (("inputs.".data ++ x.data) ++ '\x7d' :: []) := rfl
  have hne : ("inputs.".data ++ x.data) ≠ [] := by simp
  have hnobr : '\x7d' ∉ ("inputs.".data ++ x.data) := by
    intro hm
    rcases List.mem_append.mp hm with hm | hm
    · revert hm; decide
    · exact hbr hm
  unfold Context.Resolve
  rw [hdata]
  rw [show ∀ n, resolveChars c (n + 1) ('$' :: '\x7b' ::
        (("inputs.".data ++ x.data) ++ '\x7d' :: []))
      = match matchMarker '$' ('\x7b' :: (("inputs.".data ++ x.data) ++ '\x7d' :: [])) with
        | some (inner, post) =>
          match resolveRef c inner with
          | some repl => repl ++ resolveChars c n post
          | none => '$' :: '\x7b' :: (inner ++ '\x7d' :: resolveChars c n post)
        | none => '$' :: resolveChars c n ('\x7b' ::
            (("inputs.".data ++ x.data) ++ '\x7d' :: []))
      from fun n => rfl]
  rw [matchMarker_eq _ _ hne hnobr]
  simp only [resolveRef_inputs c x.data hdot, mk_data]
  cases hl : c.inputs.lookup x with
  | some v =>
    simp [resolveChars_nil, mk_data]
  | none =>
    rw [resolveChars_nil]
    exact rfl

/-- A template without `$` resolves to itself, for any fuel. -/
theorem resolveChars_no_dollar (c : Context) (l : List Char) (h : '$' ∉ l) :
    ∀ f, resolveChars c f l = l := by
  induction l with
  | nil => intro f; exact resolveChars_nil c f
  | cons ch t ih =>
    intro f
    cases f with
    | zero => rfl
    | succ f =>
      have hc : ¬ ch = '$' := fun hc => h (hc ▸ List.mem_cons_self ch t)
      have ht : '$' ∉ t := fun hm => h (List.mem_cons_of_mem ch hm)
      have hmk : matchMarker ch t = none := by simp [matchMarker, hc]
      simp [resolveChars, hmk, ih ht f]

theorem resolve_no_marker (c : Context) (s : String) (h : '$' ∉ s.data) :
    Context.Resolve c s = s := by
  unfold Context.Resolve
  rw [resolveChars_no_dollar c s.data h, mk_data]

/-- C5 counterexample -- the input name `a.b` is present in the Context's
Inputs, yet `Resolve` returns the literal marker text, not the mapped
value `5`: the claim fails for names containing a dot (the path split
looks up only the segment before the first dot). -/
theorem C5_counterexample :
    (NewContext [("a.b", "5")]).inputs.lookup "a.b" = some "5" ∧
    Context.Resolve (NewContext [("a.b", "5")]) "$\x7binputs.a.b\x7d"
      = "$\x7binputs.a.b\x7d" ∧
    ("$\x7binputs.a.b\x7d" : String) ≠ "5" := by
  refine ⟨by decide, by decide, by decide⟩

/-- C5 (amended) -- for every Context and input name without a dot or a
closing brace, `Resolve` on the single marker returns the mapped value
when the name is present in Inputs and the literal marker text unchanged
when it is absent. -/
theorem C5_amended_resolve_inputs (c : Context) (x : String)
    (hdot : '.' ∉ x.data) (hbr : '\x7d' ∉ x.data) :
    (∀ v, c.inputs.lookup x = some v →
      Context.Resolve c ("$\x7binputs." ++ x ++ "\x7d") = v) ∧
    (c.inputs.lookup x = none →
      Context.Resolve c ("$\x7binputs." ++ x ++ "\x7d")
        = "$\x7binputs." ++ x ++ "\x7d") := by
  constructor
  · intro v hv
    rw [resolve_single_marker c x hdot hbr, hv]
  · intro hv
    rw [resolve_single_marker c x hdot hbr, hv]

/-- Witness for the amended C5 at the spec's own example inputs. -/
theorem C5_amended_resolve_inputs_witness :
    ('.' ∉ "x".data ∧ '\x7d' ∉ "x".data ∧
     (NewContext [("x", "5")]).inputs.lookup "x" = some "5" ∧
     (NewContext [("x", "5")]).inputs.lookup "missing" = none) ∧
    Context.Resolve (NewContext [("x", "5")]) "$\x7binputs.x\x7d" = "5" ∧
    Context.Resolve (NewContext [("x", "5")]) "$\x7binputs.missing\x7d"
      = "$\x7binputs.missing\x7d" :=
  ⟨by decide,
   (C5_amended_resolve_inputs (NewContext [("x", "5")]) "x"
     (by decide) (by decide)).1 "5" (by decide),
   (C5_amended_resolve_inputs (NewContext [("x", "5")]) "missing"
     (by decide) (by decide)).2 (by decide)⟩

/-- C9 -- `Resolve` is deterministic (equal template and equal Context
state give equal output) and single-pass: a marker whose name is present
resolves to the mapped value verbatim, whatever that value contains --
in particular a `$\x7b...\x7d` marker inside the value is not re-scanned. -/
theorem C9_resolve_single_pass :
    (∀ (t1 t2 : String) (c1 c2 : Context), t1 = t2 → c1 = c2 →
      Context.Resolve c1 t1 = Context.Resolve c2 t2) ∧
    (∀ (c : Context) (x v : String), '.' ∉ x.data → '\x7d' ∉ x.data →
      c.inputs.lookup x = some v →
      Context.Resolve c ("$\x7binputs." ++ x ++ "\x7d") = v) := by
  constructor
  · intro t1 t2 c1 c2 ht hc
    rw [ht, hc]
  · intro c x v hdot hbr hv
    rw [resolve_single_marker c x hdot hbr, hv]

/-- Witness for C9: the value stored under `x` is itself marker text for
`y`, and resolving `x`'s marker returns it verbatim -- not `y`'s value --
so substituted values are not re-scanned. -/
theorem C9_resolve_single_pass_witness :
    ('.' ∉ "x".data ∧ '\x7d' ∉ "x".data ∧
     (NewContext [("x", "$\x7binputs.y\x7d"), ("y", "Z")]).inputs.lookup "x"
       = some "$\x7binputs.y\x7d") ∧
    Context.Resolve (NewContext [("x", "$\x7binputs.y\x7d"), ("y", "Z")])
      "$\x7binputs.x\x7d" = "$\x7binputs.y\x7d" ∧
    ("$\x7binputs.y\x7d" : String) ≠ "Z" :=
  ⟨by decide,
   (C9_resolve_single_pass).2 (NewContext [("x", "$\x7binputs.y\x7d"), ("y", "Z")])
     "x" "$\x7binputs.y\x7d" (by decide) (by decide) (by decide),
   by decide⟩

/-- C6 counterexample -- the expression `" true "` contains no comparison
operator and no AND/OR connective, is not exactly the literal `true`, yet
evaluates to true: the evaluator trims whitespace first, so the claim's
"exactly the literal `true`" is wrong as stated. -/
theorem C6_counterexample :
    (splitFirst " OR ".data " true ".data = none ∧
     splitFirst " AND ".data " true ".data = none ∧
     findOp opsList " true ".data = none) ∧
    evaluate " true " = true ∧ (" true " : String) ≠ "true" := by
  refine ⟨by decide, by decide, by decide⟩

set_option maxRecDepth 20000 in
set_option exponentiation.threshold 4000 in
/-- C6 (amended) -- `EvaluateCondition` of the empty expression is true;
an expression with no comparison operator and no AND/OR connective
evaluates to true iff its whitespace-trimmed form is exactly the literal
`true`; OR binds lower than AND, so `5 > 3 AND 2 < 1` is false while
`5 > 3 OR 2 < 1` is true, for every Context. -/
theorem C6_amended_evaluate :
    (∀ ctx : Context, EvaluateCondition "" ctx = true) ∧
    (∀ s : String,
      splitFirst " OR ".data (goTrimSpace s.data) = none →
      splitFirst " AND ".data (goTrimSpace s.data) = none →
      findOp opsList (goTrimSpace s.data) = none →
      (evaluate s = true ↔ goTrimSpace s.data = "true".data)) ∧
    (∀ ctx : Context, EvaluateCondition "5 > 3 AND 2 < 1" ctx = false) ∧
    (∀ ctx : Context, EvaluateCondition "5 > 3 OR 2 < 1" ctx = true) := by
  refine ⟨fun ctx => rfl, ?_, ?_, ?_⟩
  · intro s hOR hAND hFind
    unfold evaluate
    simp only [evalExpr, hOR, hAND, hFind]
    exact decide_eq_true_iff
  · intro ctx
    unfold EvaluateCondition
    rw [if_neg (by decide : ¬ ("5 > 3 AND 2 < 1" : String) = ""),
        resolve_no_marker ctx _ (by decide)]
    decide
  · intro ctx
    unfold EvaluateCondition
    rw [if_neg (by decide : ¬ ("5 > 3 OR 2 < 1" : String) = ""),
        resolve_no_marker ctx _ (by decide)]
    decide

/-- Witness for the amended C6, instantiating the operator-free branch at
`" true "` and the empty expression at a concrete Context. -/
theorem C6_amended_evaluate_witness :
    (evaluate " true " = true ↔ goTrimSpace " true ".data = "true".data) ∧
    EvaluateCondition "" (NewContext []) = true :=
  ⟨C6_amended_evaluate.2.1 " true " (by decide) (by decide) (by decide),
   C6_amended_evaluate.1 (NewContext [])⟩

theorem lookup_cons_ne {β : Type} (a : String) (b : β) (m : List (String × β))
    (k : String) (h : ¬ k = a) : ((a, b) :: m).lookup k = m.lookup k := by
  simp [List.lookup, beq_eq_false_iff_ne.mpr h]

theorem lookup_cons_self {β : Type} (a : String) (b : β) (m : List (String × β)) :
    ((a, b) :: m).lookup a = some b := by
  simp [List.lookup]

/-- Names never touched by the validation loop keep their bindings. -/
theorem validate_preserves (l : List Input) :
    ∀ (m m' : List (String × String)) (k : String),
      validateInputs l m = Sum.inr m' → k ∉ l.map Input.name →
      m'.lookup k = m.lookup k := by
  induction l with
  | nil =>
    intro m m' k h _
    injection h with h
    rw [h]
  | cons i rest ih =>
    intro m m' k h hk
    have hkne : ¬ k = i.name := fun he => hk (by simp [he])
    have hkrest : k ∉ rest.map Input.name := fun hm => hk (by simp [hm])
    unfold validateInputs at h
    by_cases hreq : i.required = true
    · rw [if_pos hreq] at h
      cases hli : m.lookup i.name with
      | some v =>
        rw [hli] at h
        exact ih m m' k h hkrest
      | none =>
        rw [hli] at h
        by_cases hdef : i.default ≠ ""
        · rw [if_pos hdef] at h
          rw [ih _ _ _ h hkrest, lookup_cons_ne _ _ _ _ hkne]
        · rw [if_neg hdef] at h
          cases h
    · rw [if_neg (by simpa using hreq)] at h
      exact ih m m' k h hkrest

/-- Validation succeeds when every required input is present or carries a
nonempty default. -/
theorem validate_succeeds (l : List Input) :
    ∀ (m : List (String × String)),
      (∀ j ∈ l, j.required = true → m.lookup j.name = none → j.default ≠ "") →
      ∃ m', validateInputs l m = Sum.inr m' := by
  induction l with
  | nil => intro m _; exact ⟨m, rfl⟩
  | cons i rest ih =>
    intro m hall
    unfold validateInputs
    by_cases hreq : i.required = true
    · rw [if_pos hreq]
      cases hli : m.lookup i.name with
      | some v =>
        exact ih m (fun j hj => hall j (List.mem_cons_of_mem i hj))
      | none =>
        have hdef : i.default ≠ "" := hall i (List.mem_cons_self i rest) hreq hli
        rw [if_pos hdef]
        refine ih _ (fun j hj hjr hjl => ?_)
        refine hall j (List.mem_cons_of_mem i hj) hjr ?_
        by_cases hne : j.name = i.name
        · rw [hne, lookup_cons_self] at hjl
          cases hjl
        · rw [lookup_cons_ne _ _ _ _ hne] at hjl
          exact hjl
    · rw [if_neg (by simpa using hreq)]
      exact ih m (fun j hj => hall j (List.mem_cons_of_mem i hj))

/-- Validation fails with MISSING_INPUT when some required input is
absent and has an empty default (input names assumed distinct). -/
theorem validate_fails (l : List Input) :
    ∀ (m : List (String × String)),
      (l.map Input.name).Nodup →
      (∃ i ∈ l, i.required = true ∧ m.lookup i.name = none ∧ i.default = "") →
      ∃ nm, validateInputs l m
        = Sum.inl (failureEnv "MISSING_INPUT" ("Required input: " ++ nm)) := by
  induction l with
  | nil =>
    intro m _ hex
    rcases hex with ⟨i, hi, _⟩
    cases hi
  | cons a rest ih =>
    intro m hnd hex
    have hnd' : (rest.map Input.name).Nodup := (List.nodup_cons.mp hnd).2
    have hane : a.name ∉ rest.map Input.name := (List.nodup_cons.mp hnd).1
    rcases hex with ⟨i, hi, hir, hil, hid⟩
    unfold validateInputs
    by_cases hreq : a.required = true
    · rw [if_pos hreq]
      cases hla : m.lookup a.name with
      | some v =>
        have hirest : i ∈ rest := by
          rcases List.mem_cons.mp hi with rfl | h
          · rw [hla] at hil; cases hil
          · exact h
        exact ih m hnd' ⟨i, hirest, hir, hil, hid⟩
      | none =>
        by_cases hdef : a.default ≠ ""
        · rw [if_pos hdef]
          have hirest : i ∈ rest := by
            rcases List.mem_cons.mp hi with rfl | h
            · exact absurd hid hdef
            · exact h
          have hine : ¬ i.name = a.name := fun he => hane (he ▸ List.mem_map_of_mem Input.name hirest)
          refine ih _ hnd' ⟨i, hirest, hir, ?_, hid⟩
          rw [lookup_cons_ne _ _ _ _ hine]
          exact hil
        · rw [if_neg hdef]
          exact ⟨a.name, rfl⟩
    · rw [if_neg (by simpa using hreq)]
      have hirest : i ∈ rest := by
        rcases List.mem_cons.mp hi with rfl | h
        · exact absurd hir (by simpa using hreq)
        · exact h
      exact ih m hnd' ⟨i, hirest, hir, hil, hid⟩

/-- A required input filled from its default keeps that value through the
rest of validation (input names assumed distinct). -/
theorem validate_default (l : List Input) :
    ∀ (m : List (String × String)) (i : Input),
      (l.map Input.name).Nodup → i ∈ l → i.required = true →
      m.lookup i.name = none → i.default ≠ "" →
      (∀ j ∈ l, j.required = true → m.lookup j.name = none → j.default ≠ "") →
      ∃ m', validateInputs l m = Sum.inr m' ∧ m'.lookup i.name = some i.default := by
  induction l with
  | nil =>
    intro m i _ hi
    cases hi
  | cons a rest ih =>
    intro m i hnd hi hir hil hid hall
    have hnd' : (rest.map Input.name).Nodup := (List.nodup_cons.mp hnd).2
    have hane : a.name ∉ rest.map Input.name := (List.nodup_cons.mp hnd).1
    unfold validateInputs
    rcases List.mem_cons.mp hi with rfl | hirest
    · rw [if_pos hir, hil, if_pos hid]
      have hall' : ∀ j ∈ rest, j.required = true →
          ((i.name, i.default) :: m).lookup j.name = none → j.default ≠ "" := by
        intro j hj hjr hjl
        by_cases hne : j.name = i.name
        · rw [hne, lookup_cons_self] at hjl
          cases hjl
        · rw [lookup_cons_ne _ _ _ _ hne] at hjl
          exact hall j (List.mem_cons_of_mem i hj) hjr hjl
      obtain ⟨m', hm'⟩ := validate_succeeds rest _ hall'
      refine ⟨m', hm', ?_⟩
      rw [validate_preserves rest _ _ _ hm' hane, lookup_cons_self]
    · by_cases hreq : a.required = true
      · rw [if_pos hreq]
        cases hla : m.lookup a.name with
        | some v =>
          exact ih m i hnd' hirest hir hil hid
            (fun j hj => hall j (List.mem_cons_of_mem a hj))
        | none =>
          have hadef : a.default ≠ "" := hall a (List.mem_cons_self a rest) hreq hla
          rw [if_pos hadef]
          have hine : ¬ i.name = a.name := fun he => hane (he ▸ List.mem_map_of_mem Input.name hirest)
          refine ih _ i hnd' hirest hir ?_ hid ?_
          · rw [lookup_cons_ne _ _ _ _ hine]
            exact hil
          · intro j hj hjr hjl
            by_cases hne : j.name = a.name
            · rw [hne, lookup_cons_self] at hjl
              cases hjl
            · rw [lookup_cons_ne _ _ _ _ hne] at hjl
              exact hall j (List.mem_cons_of_mem a hj) hjr hjl
      · rw [if_neg (by simpa using hreq)]
        exact ih m i hnd' hirest hir hil hid
          (fun j hj => hall j (List.mem_cons_of_mem a hj))

/-- C3 -- With distinct declared input names: if some required input is
absent from the supplied map with an empty default, `Run` returns a
Failure Envelope with error code MISSING_INPUT and a nil Go error before
any step executes (nothing dispatched, no step result recorded); if every
required-but-absent input carries a nonempty default, validation fills the
defaults and the run proceeds to the step loop on the filled map. -/
theorem C3_missing_input (D : Dispatch) (b : Bundle)
    (inputs : List (String × String)) (jobID : String)
    (hnd : (b.inputs.map Input.name).Nodup) :
    ((∃ i ∈ b.inputs, i.required = true ∧ inputs.lookup i.name = none ∧
        i.default = "") →
      (Run D b inputs jobID).env.status = Status.failure ∧
      (∃ nm, (Run D b inputs jobID).env.error
        = some ("MISSING_INPUT", "Required input: " ++ nm)) ∧
      (Run D b inputs jobID).err = none ∧
      (Run D b inputs jobID).trace = [] ∧
      (Run D b inputs jobID).ctx.stepResults = []) ∧
    (∀ i ∈ b.inputs, i.required = true → inputs.lookup i.name = none →
      i.default ≠ "" →
      (∀ j ∈ b.inputs, j.required = true → inputs.lookup j.name = none →
        j.default ≠ "") →
      ∃ m, validateInputs b.inputs inputs = Sum.inr m ∧
        m.lookup i.name = some i.default ∧
        Run D b inputs jobID = stepsPhase D b m jobID) := by
  constructor
  · intro hex
    obtain ⟨nm, heq⟩ := validate_fails b.inputs inputs hnd hex
    unfold Run
    rw [heq]
    exact ⟨rfl, ⟨nm, rfl⟩, rfl, rfl, rfl⟩
  · intro i hi hir hil hid hall
    obtain ⟨m, heq, hlk⟩ := validate_default b.inputs inputs i hnd hi hir hil hid hall
    refine ⟨m, heq, hlk, ?_⟩
    unfold Run
    rw [heq]

def c3Input : Input :=
  { name := "x", required := true, description := "", default := "" }

def c3InputD : Input :=
  { name := "x", required := true, description := "", default := "d5" }

def c3Bundle : Bundle :=
  { name := "b", description := "", inputs := [c3Input],
    steps := [mkToolStep "s1" "claude" "t"] }

def c3BundleD : Bundle :=
  { name := "b", description := "", inputs := [c3InputD],
    steps := [mkToolStep "s1" "claude" "t"] }

def c3Dispatch : Dispatch := fun s c =>
  { env := { status := Status.success, tool := s.tool, outputRef := "",
             result := [], duration := 0, error := none },
    err := none, ctx := c }

/-- Witness for C3: the required input `x` supplied by nobody -- with an
empty default the run fails before any step, with default `d5` the
default is used and the run proceeds. -/
theorem C3_missing_input_witness :
    ((Run c3Dispatch c3Bundle [] "j").env.status = Status.failure ∧
     (Run c3Dispatch c3Bundle [] "j").trace = [] ∧
     (Run c3Dispatch c3Bundle [] "j").ctx.stepResults = []) ∧
    (∃ m, validateInputs c3BundleD.inputs [] = Sum.inr m ∧
      m.lookup c3InputD.name = some c3InputD.default ∧
      Run c3Dispatch c3BundleD [] "j" = stepsPhase c3Dispatch c3BundleD m "j") := by
  constructor
  · have h := (C3_missing_input c3Dispatch c3Bundle [] "j" (by decide)).1
      ⟨c3Input, by decide, by decide, by decide, by decide⟩
    exact ⟨h.1, h.2.2.2.1, h.2.2.2.2⟩
  · exact (C3_missing_input c3Dispatch c3BundleD [] "j" (by decide)).2
      c3InputD (by decide) (by decide) (by decide) (by decide) (by decide)

def okEnv (t : String) : Envelope :=
  { status := Status.success, tool := t, outputRef := "", result := [],
    duration := 0, error := none }

def execFailEnv (t : String) : Envelope :=
  { status := Status.failure, tool := t, outputRef := "", result := [],
    duration := 0, error := some ("EXEC_FAILED", "boom") }

/-- A concrete dispatcher for counterexamples and witnesses: the step
named `bad` produces a Failure Envelope, every other step a Success one;
no hard errors, the Context is left unchanged. -/
def nameDispatch : Dispatch := fun s c =>
  { env := if s.name = "bad" then execFailEnv s.name else okEnv s.name,
    err := none, ctx := c }

/-- C1 (amended) -- for a conditional step (a step with a `then`
sub-step): when its condition evaluates true (in particular when `if` is
empty), the `then` sub-step is dispatched and its Envelope recorded under
the parent step's name; when `if` is nonempty and evaluates false, the
step is recorded as Skipped and neither `then` nor `else` is dispatched
-- the `else` sub-step is unreachable. -/
theorem C1_amended_conditional (D : Dispatch) (s t : Step) (rest : List Step)
    (ctx : Context) (tr : List String) (hthen : s.thenStep = some t) :
    (EvaluateCondition s.ifCond ctx = true →
      runSteps D (s :: rest) ctx tr =
        match (D t ctx).err with
        | some e => StepsOutcome.halted (D t ctx).env (some e)
            (Context.setResult (D t ctx).ctx s.name (D t ctx).env) (tr ++ [t.name])
        | none => runSteps D rest
            (Context.setResult (D t ctx).ctx s.name (D t ctx).env)
            (tr ++ [t.name])) ∧
    (s.ifCond ≠ "" → EvaluateCondition s.ifCond ctx = false →
      runSteps D (s :: rest) ctx tr
        = runSteps D rest (ctx.setResult s.name skippedEnv) tr) := by
  constructor
  · intro hc
    have hskip : ¬ (s.ifCond ≠ "" ∧ EvaluateCondition s.ifCond ctx = false) := by
      rintro ⟨-, h2⟩
      rw [hc] at h2
      exact Bool.noConfusion h2
    simp only [runSteps, hthen, hc]
    simp
  · intro hne hc
    simp only [runSteps]
    rw [if_pos ⟨hne, hc⟩]

def c1Then : Step := mkToolStep "t1" "claude" "a"

def c1Else : Step := mkToolStep "e1" "codex" "b"

def c1Bundle : Bundle :=
  { name := "b", description := "", inputs := [],
    steps := [mkCondStep "cond" "false" c1Then (some c1Else)] }

/-- C1 counterexample -- a conditional step with condition `false` and an
`else` sub-step present: the claim says the `else` sub-step executes and
its Envelope is recorded under the parent name, but the run records the
Skipped Envelope instead and dispatches nothing at all. -/
theorem C1_counterexample :
    (mkCondStep "cond" "false" c1Then (some c1Else)).elseStep = some c1Else ∧
    EvaluateCondition "false" (NewContext []) = false ∧
    (Run nameDispatch c1Bundle [] "j").ctx.stepResults.lookup "cond"
      = some skippedEnv ∧
    (Run nameDispatch c1Bundle [] "j").trace = [] ∧
    skippedEnv ≠ (nameDispatch c1Else (NewContext [])).env := by
  refine ⟨rfl, by decide, by decide, by decide, by decide⟩

/-- Witness for the amended C1: the true-condition branch dispatches
`then` and records its Envelope under the parent name; the
false-condition branch records Skipped without dispatching. -/
theorem C1_amended_conditional_witness :
    (EvaluateCondition (mkCondStep "cond" "" c1Then (some c1Else)).ifCond
       (NewContext []) = true ∧
     (mkCondStep "cond" "false" c1Then (some c1Else)).ifCond ≠ "" ∧
     EvaluateCondition "false" (NewContext []) = false) ∧
    runSteps nameDispatch [mkCondStep "cond" "" c1Then (some c1Else)]
        (NewContext []) []
      = runSteps nameDispatch []
          (Context.setResult (NewContext []) "cond"
            (nameDispatch c1Then (NewContext [])).env) ["t1"] ∧
    runSteps nameDispatch [mkCondStep "cond" "false" c1Then (some c1Else)]
        (NewContext []) []
      = runSteps nameDispatch []
          (Context.setResult (NewContext []) "cond" skippedEnv) [] :=
  ⟨by decide,
   (C1_amended_conditional nameDispatch
     (mkCondStep "cond" "" c1Then (some c1Else)) c1Then [] (NewContext []) []
     rfl).1 (by decide),
   (C1_amended_conditional nameDispatch
     (mkCondStep "cond" "false" c1Then (some c1Else)) c1Then [] (NewContext []) []
     rfl).2 (by decide) (by decide)⟩

/-- C2 (amended) -- the halt-on-Failure rule holds for every directly
dispatched step (one with no `then` sub-step) whose condition does not
skip it: when the dispatcher returns a Failure-status Envelope with a nil
hard error, the loop records it and halts at once with that Envelope and
a non-nil error, so no later step is dispatched.  (A Failure Envelope
recorded for a conditional step's branch does not halt the run -- see the
counterexample.) -/
theorem C2_amended_failure_halts (D : Dispatch) (s : Step) (rest : List Step)
    (ctx : Context) (tr : List String)
    (hthen : s.thenStep = none)
    (hcond : s.ifCond = "" ∨ EvaluateCondition s.ifCond ctx = true)
    (herr : (D s ctx).err = none)
    (hfail : (D s ctx).env.status = Status.failure) :
    runSteps D (s :: rest) ctx tr =
      StepsOutcome.halted (D s ctx).env
        (some ("step " ++ s.name ++ " failed"))
        (Context.setResult (D s ctx).ctx s.name (D s ctx).env)
        (tr ++ [s.name]) := by
  have hskip : ¬ (s.ifCond ≠ "" ∧ EvaluateCondition s.ifCond ctx = false) := by
    rintro ⟨h1, h2⟩
    rcases hcond with h | h
    · exact h1 h
    · rw [h] at h2
      exact Bool.noConfusion h2
  simp only [runSteps, hthen, herr]
  rw [if_neg hskip]
  simp only [herr, hfail]
  simp

def c2Bundle : Bundle :=
  { name := "b", description := "", inputs := [],
    steps := [mkCondStep "c1" "" (mkToolStep "bad" "claude" "x") none,
              mkToolStep "s3" "codex" "y"] }

/-- C2 counterexample -- a bundle whose first step is conditional and
whose `then` branch produces a Failure Envelope recorded under the parent
name: the run does not halt there; the following step `s3` is dispatched
and `Run` returns overall Success with a nil error, contradicting the
claim for this recorded-Failure step. -/
theorem C2_counterexample :
    (Run nameDispatch c2Bundle [] "j").ctx.stepResults.lookup "c1"
      = some (execFailEnv "bad") ∧
    (execFailEnv "bad").status = Status.failure ∧
    (Run nameDispatch c2Bundle [] "j").trace = ["bad", "s3"] ∧
    (Run nameDispatch c2Bundle [] "j").err = none ∧
    (Run nameDispatch c2Bundle [] "j").env.status = Status.success := by
  refine ⟨by decide, by decide, by decide, by decide, by decide⟩

/-- Dispatcher for the C2 witness: fails exactly the step named
`step2`. -/
def c2Dispatch : Dispatch := fun s c =>
  { env := if s.name = "step2" then execFailEnv "step2" else okEnv s.name,
    err := none, ctx := c }

def c2Ctx1 : Context :=
  Context.setResult (NewContext []) "step1" (okEnv "step1")

/-- Witness for the amended C2 at the spec's example: after step1
succeeded, step2's Failure halts the loop -- step3 is never dispatched
and the non-nil error names step2. -/
theorem C2_amended_failure_halts_witness :
    ((c2Dispatch (mkToolStep "step2" "claude" "x") c2Ctx1).err = none ∧
     (c2Dispatch (mkToolStep "step2" "claude" "x") c2Ctx1).env.status
       = Status.failure) ∧
    runSteps c2Dispatch
        [mkToolStep "step2" "claude" "x", mkToolStep "step3" "codex" "y"]
        c2Ctx1 ["step1"]
      = StepsOutcome.halted (execFailEnv "step2") (some "step step2 failed")
          (Context.setResult c2Ctx1 "step2" (execFailEnv "step2"))
          ["step1", "step2"] :=
  ⟨by decide,
   C2_amended_failure_halts c2Dispatch (mkToolStep "step2" "claude" "x")
     [mkToolStep "step3" "codex" "y"] c2Ctx1 ["step1"]
     rfl (Or.inl rfl) rfl rfl⟩

theorem collect_names (D : Dispatch) (subs : List Step) :
    ∀ ctx, (parallelCollect D subs ctx).results.map Prod.fst
      = subs.map Step.name := by
  induction subs with
  | nil => intro ctx; rfl
  | cons s rest ih =>
    intro ctx
    simp only [parallelCollect, List.map_cons, ih]

theorem collect_ctx (D : Dispatch) (hD : ∀ s c, (D s c).ctx = c)
    (subs : List Step) :
    ∀ ctx, (parallelCollect D subs ctx).ctx.stepResults
      = (parallelCollect D subs ctx).results.reverse ++ ctx.stepResults := by
  induction subs with
  | nil => intro ctx; rfl
  | cons s rest ih =>
    intro ctx
    simp only [parallelCollect, hD, Context.setResult, ih, List.reverse_cons,
      List.append_assoc, List.cons_append, List.nil_append]

theorem lookup_append_right {β : Type} (l l' : List (String × β)) (k : String)
    (h : k ∉ l.map Prod.fst) : (l ++ l').lookup k = l'.lookup k := by
  induction l with
  | nil => rfl
  | cons p t ih =>
    have hne : ¬ k = p.1 := fun he => h (by simp [he])
    have ht : k ∉ t.map Prod.fst := fun hm => h (by simp [hm])
    obtain ⟨a, b⟩ := p
    rw [List.cons_append, lookup_cons_ne a b _ k hne]
    exact ih ht

theorem lookup_reverse_mem {β : Type} (rs : List (String × β)) :
    ∀ (old : List (String × β)) (p : String × β),
      (rs.map Prod.fst).Nodup → p ∈ rs →
      (rs.reverse ++ old).lookup p.1 = some p.2 := by
  induction rs with
  | nil =>
    intro old p _ hp
    cases hp
  | cons r t ih =>
    intro old p hnd hp
    have hnd' : (t.map Prod.fst).Nodup := (List.nodup_cons.mp hnd).2
    have hrne : r.1 ∉ t.map Prod.fst := (List.nodup_cons.mp hnd).1
    rw [List.reverse_cons, List.append_assoc, List.singleton_append]
    rcases List.mem_cons.mp hp with rfl | hpt
    · have hnr : p.1 ∉ t.reverse.map Prod.fst := by
        rw [List.map_reverse]
        intro hm
        exact hrne (List.mem_reverse.mp hm)
      rw [lookup_append_right _ _ _ hnr]
      obtain ⟨a, b⟩ := p
      exact lookup_cons_self a b old
    · exact ih (r :: old) p hnd' hpt

theorem exists_pair_of_name {β : Type} (l : List (String × β)) (k : String)
    (h : k ∈ l.map Prod.fst) : ∃ v, (k, v) ∈ l := by
  rcases List.mem_map.mp h with ⟨p, hp, hpk⟩
  exact ⟨p.2, by rw [← hpk]; exact hp⟩

/-- C4 -- With distinct sub-step names and a dispatcher that leaves the
Context to the collector (as the tool/merge/vote executors do): the
parallel aggregate Envelope's status is Success exactly when every
collected sub-step Envelope is Success and Partial otherwise, and every
collected sub-step Envelope is found in the shared Context under that
sub-step's own name, unaltered; every sub-step contributes one collected
Envelope. -/
theorem C4_parallel_aggregate (D : Dispatch) (step : Step) (ctx : Context)
    (hD : ∀ s c, (D s c).ctx = c)
    (hnd : (step.parallel.map Step.name).Nodup) :
    ((parallelExecute D step ctx).env.status = Status.success ∨
     (parallelExecute D step ctx).env.status = Status.partialResult) ∧
    ((parallelExecute D step ctx).env.status = Status.success ↔
      ∀ p ∈ (parallelCollect D step.parallel ctx).results,
        p.2.status = Status.success) ∧
    (∀ p ∈ (parallelCollect D step.parallel ctx).results,
      (parallelExecute D step ctx).ctx.stepResults.lookup p.1 = some p.2) ∧
    (∀ s ∈ step.parallel, ∃ e,
      (s.name, e) ∈ (parallelCollect D step.parallel ctx).results) := by
  have hnames : (parallelCollect D step.parallel ctx).results.map Prod.fst
      = step.parallel.map Step.name := collect_names D step.parallel ctx
  refine ⟨?_, ?_, ?_, ?_⟩
  · by_cases h : (parallelCollect D step.parallel ctx).results.all
        (fun p => p.2.status = Status.success) = true
    · left
      simp [parallelExecute, h]
    · right
      simp only [parallelExecute]
      rw [if_neg (by simpa using h)]
  · constructor
    · intro hs p hp
      by_cases h : (parallelCollect D step.parallel ctx).results.all
          (fun p => p.2.status = Status.success) = true
      · have := List.all_eq_true.mp h p hp
        simpa using this
      · exfalso
        simp only [parallelExecute] at hs
        rw [if_neg (by simpa using h)] at hs
        exact Status.noConfusion hs
    · intro hall
      have h : (parallelCollect D step.parallel ctx).results.all
          (fun p => p.2.status = Status.success) = true := by
        refine List.all_eq_true.mpr (fun p hp => ?_)
        simpa using hall p hp
      simp [parallelExecute, h]
  · intro p hp
    have hctx : (parallelExecute D step ctx).ctx
        = (parallelCollect D step.parallel ctx).ctx := rfl
    rw [hctx, collect_ctx D hD step.parallel ctx]
    exact lookup_reverse_mem _ _ p (hnames ▸ hnd) hp
  · intro s hs
    refine exists_pair_of_name _ _ ?_
    rw [hnames]
    exact List.mem_map_of_mem Step.name hs

/-- Dispatcher for the C4 witness: sub-step `B` fails, the rest succeed;
the Context is left to the collector. -/
def c4Dispatch : Dispatch := fun s c =>
  { env := if s.name = "B" then execFailEnv "B" else okEnv s.name,
    err := none, ctx := c }

def c4Step : Step :=
  Step.mk "par" "" "" "" [mkToolStep "A" "claude" "x", mkToolStep "B" "codex" "y"]
    none none "" none none ""

/-- Witness for C4 at the spec's example: sub-steps `A` (Success) and `B`
(Failure) give a Partial aggregate, and the Context holds both entries
with their individual statuses preserved. -/
theorem C4_parallel_aggregate_witness :
    ((parallelExecute c4Dispatch c4Step (NewContext [])).env.status
        = Status.success ∨
     (parallelExecute c4Dispatch c4Step (NewContext [])).env.status
        = Status.partialResult) ∧
    (∀ p ∈ (parallelCollect c4Dispatch c4Step.parallel (NewContext [])).results,
      (parallelExecute c4Dispatch c4Step (NewContext [])).ctx.stepResults.lookup p.1
        = some p.2) ∧
    ((parallelExecute c4Dispatch c4Step (NewContext [])).env.status
       = Status.partialResult ∧
     (parallelExecute c4Dispatch c4Step (NewContext [])).ctx.stepResults.lookup "A"
       = some (okEnv "A") ∧
     (parallelExecute c4Dispatch c4Step (NewContext [])).ctx.stepResults.lookup "B"
       = some (execFailEnv "B")) :=
  ⟨(C4_parallel_aggregate c4Dispatch c4Step (NewContext [])
      (fun _ _ => rfl) (by decide)).1,
   (C4_parallel_aggregate c4Dispatch c4Step (NewContext [])
      (fun _ _ => rfl) (by decide)).2.2.1,
   by decide⟩

end Rcodegen
